import Mathlib

/-!
Verification of `scripts/update_scores.py`, a README badge updater.

Strings are modelled as `List Char`.  Python string primitives
(`str.count`, `str.replace`, `re.sub(..., count=1)`, `in`, `split`,
`str.lower`) are embedded as executable functions with the same
left-to-right, non-overlapping scan semantics.  Timestamps are modelled
as integer seconds (UTC); `timedelta.days` is floor division by 86400
(`Int.fdiv`).  The functions `score_repo`, `score_freshness`,
`update_repo_score`, `update_repo_freshness`, `extract_repo_params`,
`fetch_repo_info` and the worklist/patch loop of `main` are translated
one to one from the source.
-/

/-- Shorthand: the character list of a string literal. -/
def toL (s : String) : List Char := s.toList

/-- Boolean prefix test on character lists. -/
def isPre : List Char → List Char → Bool
  | [], _ => true
  | _ :: _, [] => false
  | a :: as, b :: bs => a == b && isPre as bs

/-- The Python `pat in l` substring test. -/
def containsSub (pat : List Char) : List Char → Bool
  | [] => isPre pat []
  | c :: cs => isPre pat (c :: cs) || containsSub pat cs

/-- Worker for `replaceAll`, structurally recursive on a fuel argument.
`fuel ≥ l.length` makes it total on `l`. -/
def replaceAllGo (pat rep : List Char) : Nat → List Char → List Char
  | _, [] => []
  | 0, l => l
  | fuel + 1, c :: cs =>
    if pat ≠ [] ∧ isPre pat (c :: cs) = true then
      rep ++ replaceAllGo pat rep fuel ((c :: cs).drop pat.length)
    else
      c :: replaceAllGo pat rep fuel cs

/-- The Python `l.replace(pat, rep)`: replace every occurrence, scanning
left to right without overlap and without rescanning the replacement. -/
def replaceAll (pat rep l : List Char) : List Char :=
  replaceAllGo pat rep l.length l

/-- The Python `re.sub(pat, rep, l, count=1)` for a literal pattern:
replace only the first occurrence. -/
def replaceFirst (pat rep : List Char) : List Char → List Char
  | [] => []
  | c :: cs =>
    if pat ≠ [] ∧ isPre pat (c :: cs) = true then
      rep ++ (c :: cs).drop pat.length
    else
      c :: replaceFirst pat rep cs

/-- Worker for `countOccur`, structurally recursive on fuel. -/
def countOccurGo (pat : List Char) : Nat → List Char → Nat
  | _, [] => 0
  | 0, _ => 0
  | fuel + 1, c :: cs =>
    if pat ≠ [] ∧ isPre pat (c :: cs) = true then
      1 + countOccurGo pat fuel ((c :: cs).drop pat.length)
    else
      countOccurGo pat fuel cs

/-- The Python `l.count(pat)`: number of non-overlapping occurrences,
scanning left to right. -/
def countOccur (pat l : List Char) : Nat :=
  countOccurGo pat l.length l

/-- The Python `str.lower` (ASCII-adequate). -/
def lowerL (l : List Char) : List Char := l.map Char.toLower

/-- The Python `url.split(slash)`. -/
def splitSlash : List Char → List (List Char)
  | [] => [[]]
  | c :: cs =>
    match splitSlash cs with
    | [] => [[]]
    | h :: t => if c = '/' then [] :: h :: t else (c :: h) :: t

/-- The fire-marker run: n repetitions of the literal ":fire:". -/
def fires : Nat → List Char
  | 0 => []
  | n + 1 => toL ":fire:" ++ fires n

/-- `REPOS_EXCLUDE_SCORE` from the source. -/
def REPOS_EXCLUDE_SCORE : List (List Char) :=
  [ toL "https://github.com/donnemartin"
  , toL "https://github.com/donnemartin/awesome-aws"
  , toL "https://github.com/sindresorhus/awesome"
  , toL "https://github.com/kilimchoi/engineering-blogs"
  , toL "https://github.com/aws/aws-sdk-go/wiki"
  , toL "#" ]

/-- `score_repo(stars)`: the Fiery Meter of AWSome tier. -/
def score_repo (stars : Int) : Nat :=
  if stars < 100 then 0
  else if stars < 200 then 1
  else if stars < 500 then 2
  else if stars < 1000 then 3
  else if stars < 2000 then 4
  else 5

/-- `score_freshness(last_pushed)`.  The ambient `datetime.now(timezone.utc)`
read by the Python code is the explicit parameter `now`; timestamps are
seconds, and `(now - last_pushed).days` is `Int.fdiv _ 86400`. -/
def score_freshness (now : Int) (last_pushed : Option Int) : List Char :=
  match last_pushed with
  | none => []
  | some lp =>
    let days_stale : Int := (now - lp).fdiv 86400
    if days_stale > 365 * 3 then toL " :zzz:"
    else if days_stale > 365 * 2 then toL " :hourglass:"
    else []

/-- `update_repo_score(line, stars)`. -/
def update_repo_score (line : List Char) (stars : Int) : List Char :=
  let cached_score := countOccur (toL ":fire:") line
  let score := score_repo stars
  if score = cached_score then line
  else
    let pre := if cached_score = 0 then toL " " else []
    replaceAll (fires cached_score ++ toL "]") (pre ++ fires score ++ toL "]") line

/-- `update_repo_freshness(line, last_pushed)`, with the ambient clock
made explicit as `now`. -/
def update_repo_freshness (now : Int) (line : List Char) (last_pushed : Option Int) :
    List Char :=
  let freshness := score_freshness now last_pushed
  let line1 := replaceAll (toL " :hourglass:") [] (replaceAll (toL " :zzz:") [] line)
  if freshness = [] then line1
  else replaceFirst (toL "](") (freshness ++ toL "](") line1

/-- The JSON body the code reads on HTTP 200: `stargazers_count` is
required; `pushed_at` is optional and carried here as the already
parsed timestamp (`null` or absent is `none`). -/
structure JsonData where
  stargazers_count : Int
  pushed_at : Option Int
deriving DecidableEq

/-- Mirror of the `RepoResult` dataclass (minus `line_idx`, which the
driver model keys by list position). -/
structure RepoRes where
  url : List Char
  stars : Option Int
  pushed : Option Int
  error : Option (List Char)
deriving DecidableEq

/-- The observable outcome of one HTTP request: a response (status,
body text, parsed JSON), a timeout, or another transport fault with
its message. -/
inductive FetchInput
  | response (status : Nat) (body : List Char) (data : JsonData)
  | timeout
  | transportError (msg : List Char)
deriving DecidableEq

/-- `fetch_repo_info`: classification of one HTTP outcome, translated
from the `status_code` dispatch and the `except` clauses. -/
def fetch_repo_info (inp : FetchInput) (url : List Char) : RepoRes :=
  match inp with
  | .response status body data =>
    if status = 404 then ⟨url, none, none, some (toL "Not found")⟩
    else if status = 403 then
      if containsSub (toL "rate limit") (lowerL body) = true then
        ⟨url, none, none, some (toL "Rate limited")⟩
      else ⟨url, none, none, some (toL "Forbidden")⟩
    else if status ≠ 200 then
      ⟨url, none, none, some (toL "HTTP " ++ (Nat.repr status).toList)⟩
    else ⟨url, some data.stargazers_count, data.pushed_at, none⟩
  | .timeout => ⟨url, none, none, some (toL "Timeout")⟩
  | .transportError msg => ⟨url, none, none, some (msg.take 50)⟩

/-- The `re.search` over the pattern `(https://github.com/[^)]*)` in
`main`: the match starting at the leftmost occurrence of the literal
head, extended greedily over characters other than a closing paren. -/
def extractUrl : List Char → Option (List Char)
  | [] => none
  | c :: cs =>
    if isPre (toL "https://github.com/") (c :: cs) = true then
      some (toL "https://github.com/" ++
        ((c :: cs).drop (toL "https://github.com/").length).takeWhile (fun x => x != ')'))
    else extractUrl cs

/-- `any(substr in url for substr in REPOS_EXCLUDE_SCORE)`. -/
def isExcluded (url : List Char) : Bool :=
  REPOS_EXCLUDE_SCORE.any (fun s => containsSub s url)

/-- `extract_repo_params(url)`. -/
def extract_repo_params (url : List Char) : Option (List Char) × Option (List Char) :=
  let tokens := splitSlash url
  if 5 ≤ tokens.length then (tokens[3]?, tokens[4]?) else (none, none)

/-- The per-line eligibility test of `main`: URL present, not excluded,
owner and repo both extracted and non-empty (Python truthiness). -/
def eligible (line : List Char) : Option (List Char × List Char × List Char) :=
  match extractUrl line with
  | none => none
  | some url =>
    if isExcluded url then none
    else
      match extract_repo_params url with
      | (some o, some n) => if o ≠ [] ∧ n ≠ [] then some (o, n, url) else none
      | _ => none

/-- The `repos_to_fetch` list of `main`, carrying 0-based line indices
starting at `base`. -/
def buildWorklistFrom (base : Nat) :
    List (List Char) → List (Nat × List Char × List Char × List Char)
  | [] => []
  | l :: ls =>
    match eligible l with
    | some (o, n, u) => (base, o, n, u) :: buildWorklistFrom (base + 1) ls
    | none => buildWorklistFrom (base + 1) ls

/-- The `repos_to_fetch` worklist for a whole document. -/
def buildWorklist (lines : List (List Char)) :
    List (Nat × List Char × List Char × List Char) :=
  buildWorklistFrom 0 lines

/-- Each line paired with its fetch result (none when the line is not
in the worklist); `fetch` abstracts the network. -/
def mkEntries (lines : List (List Char))
    (fetch : List Char × List Char × List Char → RepoRes) :
    List (List Char × Option RepoRes) :=
  lines.map (fun l => (l, Option.map fetch (eligible l)))

/-- How the patch loop of `main` can fail before the write-back:
`sys.exit(1)` on a rate-limited result, or the `TypeError` raised by
`score_repo(None)` when a result has a falsy error but no star count. -/
inductive PFail
  | rateLimited
  | typeError
deriving DecidableEq

/-- Python truthiness of `r.error` (`None` and `""` are falsy). -/
def errTruthy : Option (List Char) → Bool
  | none => false
  | some s => !s.isEmpty

/-- The patch loop of `main` (lines 245-255): in document order, abort
on `"Rate limited"`, collect truthy errors into the broken list, and
patch successful lines (score then freshness).  `clock k` is the value
`datetime.now(timezone.utc)` returns at the k-th freshness call.
`.ok` means control reaches the write-back. -/
def processEntries (clock : Nat → Int) (k : Nat) :
    List (List Char × Option RepoRes) →
    Except PFail (List (List Char) × List (List Char))
  | [] => .ok ([], [])
  | (line, none) :: rest =>
    match processEntries clock k rest with
    | .ok (ls, bs) => .ok (line :: ls, bs)
    | .error e => .error e
  | (line, some r) :: rest =>
    if r.error = some (toL "Rate limited") then .error .rateLimited
    else if errTruthy r.error then
      match processEntries clock k rest with
      | .ok (ls, bs) => .ok (line :: ls, r.url :: bs)
      | .error e => .error e
    else
      match r.stars with
      | none => .error .typeError
      | some st =>
        let l2 := update_repo_freshness (clock k) (update_repo_score line st) r.pushed
        match processEntries clock (k + 1) rest with
        | .ok (ls, bs) => .ok (l2 :: ls, bs)
        | .error e => .error e

/-! ### Helper lemmas about the string primitives -/

theorem isPre_append_self (p l : List Char) : isPre p (p ++ l) = true := by
  induction p with
  | nil => rfl
  | cons a as ih => simp [isPre, ih]

theorem isPre_take_append (p : List Char) (k : Nat) (B : List Char) :
    isPre (p.take k) (p ++ B) = true := by
  induction p generalizing k with
  | nil => cases k <;> rfl
  | cons a as ih =>
    cases k with
    | zero => rfl
    | succ k => simp [isPre, ih]

theorem isPre_append_both (X u v : List Char) :
    isPre (X ++ u) (X ++ v) = isPre u v := by
  induction X with
  | nil => rfl
  | cons a as ih => simp [isPre, ih]

theorem isPre_of_isPre_of_le (p m l : List Char) (hp : isPre p l = true)
    (hm : isPre m l = true) (hlen : p.length ≤ m.length) : isPre p m = true := by
  induction p generalizing m l with
  | nil => rfl
  | cons a as ih =>
    cases l with
    | nil => simp [isPre] at hp
    | cons c cs =>
      cases m with
      | nil => simp at hlen
      | cons b bs =>
        simp only [isPre, Bool.and_eq_true, beq_iff_eq] at hp hm ⊢
        obtain ⟨hac, hp'⟩ := hp
        obtain ⟨hbc, hm'⟩ := hm
        refine ⟨hac.trans hbc.symm, ih bs cs hp' hm' ?_⟩
        simpa using hlen

theorem replaceAllGo_no_match (pat rep : List Char) :
    ∀ (f : Nat) (l : List Char), containsSub pat l = false →
      replaceAllGo pat rep f l = l := by
  intro f
  induction f with
  | zero => intro l _; cases l <;> rfl
  | succ f ih =>
    intro l h
    cases l with
    | nil => rfl
    | cons c cs =>
      simp only [containsSub, Bool.or_eq_false_iff] at h
      obtain ⟨h1, h2⟩ := h
      simp only [replaceAllGo]
      rw [if_neg (by rintro ⟨-, hpre⟩; rw [h1] at hpre; exact Bool.false_ne_true hpre)]
      rw [ih cs h2]

theorem replaceAll_no_match (pat rep l : List Char)
    (h : containsSub pat l = false) : replaceAll pat rep l = l :=
  replaceAllGo_no_match pat rep l.length l h

theorem replaceAllGo_fuel (pat rep : List Char) :
    ∀ (f₁ : Nat) (l : List Char) (f₂ : Nat), l.length ≤ f₁ → l.length ≤ f₂ →
      replaceAllGo pat rep f₁ l = replaceAllGo pat rep f₂ l := by
  intro f₁
  induction f₁ with
  | zero =>
    intro l f₂ h1 _
    cases l with
    | nil => cases f₂ <;> rfl
    | cons c cs => simp at h1
  | succ f ih =>
    intro l f₂ h1 h2
    cases l with
    | nil => cases f₂ <;> rfl
    | cons c cs =>
      cases f₂ with
      | zero => simp at h2
      | succ g =>
        by_cases hc : pat ≠ [] ∧ isPre pat (c :: cs) = true
        · have hplen : 1 ≤ pat.length := by
            cases pat with
            | nil => exact absurd rfl hc.1
            | cons _ _ => simp
          simp only [replaceAllGo, if_pos hc]
          congr 1
          apply ih
          · rw [List.length_drop]
            simp only [List.length_cons] at h1 ⊢
            omega
          · rw [List.length_drop]
            simp only [List.length_cons] at h2 ⊢
            omega
        · simp only [replaceAllGo, if_neg hc]
          simp only [List.length_cons] at h1 h2
          rw [ih cs g (by omega) (by omega)]

theorem replaceAllGo_skip (pat rep B : List Char) (hne : pat ≠ []) :
    ∀ (A : List Char) (f : Nat),
      containsSub pat (A ++ pat.take (pat.length - 1)) = false →
      A.length + pat.length + B.length ≤ f →
      replaceAllGo pat rep f (A ++ pat ++ B) = A ++ rep ++ replaceAll pat rep B := by
  have hplen : 1 ≤ pat.length := by
    cases hp : pat with
    | nil => exact absurd hp hne
    | cons _ _ => simp [hp]
  intro A
  induction A with
  | nil =>
    intro f hA hf
    simp only [List.length_nil] at hf
    cases f with
    | zero => omega
    | succ g =>
      simp only [List.nil_append]
      have hdrop : (pat ++ B).drop pat.length = B := List.drop_left pat B
      cases hp : pat with
      | nil => exact absurd hp hne
      | cons p ps =>
        rw [← hp]
        rw [hp, List.cons_append, ← List.cons_append, ← hp]  -- keep shape pat ++ B
        have hshape : pat ++ B = p :: (ps ++ B) := by rw [hp]; rfl
        rw [hshape]
        simp only [replaceAllGo]
        rw [if_pos ⟨hne, by rw [← hshape]; exact isPre_append_self pat B⟩]
        rw [← hshape, hdrop]
        have : replaceAllGo pat rep g B = replaceAll pat rep B := by
          apply replaceAllGo_fuel
          · omega
          · exact le_refl _
        rw [this]
  | cons a A' ih =>
    intro f hA hf
    have hA2 : containsSub pat ((a :: A') ++ pat.take (pat.length - 1))
        = (isPre pat (a :: (A' ++ pat.take (pat.length - 1)))
            || containsSub pat (A' ++ pat.take (pat.length - 1))) := by
      rw [List.cons_append]; rfl
    rw [hA2] at hA
    simp only [Bool.or_eq_false_iff] at hA
    obtain ⟨hnp, hA'⟩ := hA
    simp only [List.length_cons] at hf
    cases f with
    | zero => omega
    | succ g =>
      have hshape : (a :: A') ++ pat ++ B = a :: (A' ++ pat ++ B) := by
        simp
      rw [hshape]
      simp only [replaceAllGo]
      rw [if_neg ?hguard]
      case hguard =>
        rintro ⟨-, hpre⟩
        have h1 : isPre ((a :: A') ++ pat.take (pat.length - 1))
            ((a :: A') ++ (pat ++ B)) = true := by
          rw [isPre_append_both]
          exact isPre_take_append pat _ B
        have hlen2 : pat.length ≤ ((a :: A') ++ pat.take (pat.length - 1)).length := by
          rw [List.length_append, List.length_take]
          simp only [List.length_cons]
          omega
        have h2 : isPre pat ((a :: A') ++ pat.take (pat.length - 1)) = true := by
          apply isPre_of_isPre_of_le pat _ ((a :: A') ++ (pat ++ B)) ?_ h1 hlen2
          have : (a :: A') ++ (pat ++ B) = a :: (A' ++ pat ++ B) := by simp
          rw [this]
          exact hpre
        rw [List.cons_append] at h2
        rw [h2] at hnp
        exact absurd hnp (by decide)
      rw [ih g hA' (by omega)]
      simp

theorem replaceAll_skip (pat rep A B : List Char) (hne : pat ≠ [])
    (hA : containsSub pat (A ++ pat.take (pat.length - 1)) = false) :
    replaceAll pat rep (A ++ pat ++ B) = A ++ rep ++ replaceAll pat rep B := by
  unfold replaceAll
  apply replaceAllGo_skip pat rep B hne A _ hA
  simp [List.length_append]
  omega

/-! ### Claim theorems -/

/-- C4: `score_repo` is monotonically non-decreasing in the star count and
takes exactly the boundary values given by the spec at 99, 100, 199, 200, 499, 500,
999, 1000, 1999 and 2000. -/
theorem score_repo_monotone_and_boundaries :
    (∀ s t : Int, s ≤ t → score_repo s ≤ score_repo t) ∧
    score_repo 99 = 0 ∧ score_repo 100 = 1 ∧ score_repo 199 = 1 ∧
    score_repo 200 = 2 ∧ score_repo 499 = 2 ∧ score_repo 500 = 3 ∧
    score_repo 999 = 3 ∧ score_repo 1000 = 4 ∧ score_repo 1999 = 4 ∧
    score_repo 2000 = 5 := by
  constructor
  · intro s t h
    unfold score_repo
    split_ifs <;> omega
  · exact ⟨by decide, by decide, by decide, by decide, by decide, by decide,
      by decide, by decide, by decide, by decide⟩

/-- C4 witness: the monotonicity part applied at the concrete pair 150 ≤ 1500. -/
theorem score_repo_monotone_and_boundaries_witness :
    (150 : Int) ≤ 1500 ∧ score_repo 150 ≤ score_repo 1500 :=
  ⟨by decide, score_repo_monotone_and_boundaries.1 150 1500 (by decide)⟩

theorem score_freshness_shift (now c : Int) :
    score_freshness now (some (now - c)) = score_freshness 0 (some (-c)) := by
  simp only [score_freshness, sub_sub_cancel, zero_sub, neg_neg]

/-- C3 counterexample: at exactly 1095 whole days the code yields the
"aging" tag `" :hourglass:"`, not the "dormant" tag `" :zzz:"` the claim
requires, and at exactly 730 days it yields no tag, not "aging". -/
theorem staleness_boundary_mismatch :
    score_freshness 0 (some (-(1095 * 86400))) ≠ toL " :zzz:" ∧
    score_freshness 0 (some (-(730 * 86400))) ≠ toL " :hourglass:" := by
  constructor <;> decide

/-- C3 amended: the comparisons are strict, so exactly 1096 days is
"dormant", exactly 1095 and 731 (and 1094) days are "aging", exactly 730
and 729 days give no tag, and an absent timestamp gives no tag — for
every reference time `now`. -/
theorem score_freshness_boundaries (now : Int) :
    score_freshness now (some (now - 1096 * 86400)) = toL " :zzz:" ∧
    score_freshness now (some (now - 1095 * 86400)) = toL " :hourglass:" ∧
    score_freshness now (some (now - 1094 * 86400)) = toL " :hourglass:" ∧
    score_freshness now (some (now - 731 * 86400)) = toL " :hourglass:" ∧
    score_freshness now (some (now - 730 * 86400)) = [] ∧
    score_freshness now (some (now - 729 * 86400)) = [] ∧
    score_freshness now none = [] := by
  refine ⟨?_, ?_, ?_, ?_, ?_, ?_, rfl⟩ <;>
    · rw [score_freshness_shift]
      decide

/-- C3 amended, instantiated at `now = 0`. -/
theorem score_freshness_boundaries_witness :
    score_freshness 0 (some ((0 : Int) - 1096 * 86400)) = toL " :zzz:" :=
  (score_freshness_boundaries 0).1

/-- C1: the full patch (score then staleness) is not idempotent.  On the
line `"- [a :fire: :zzz:](u)"` with a successful fetch result of 200 stars
and no last-push timestamp, one application yields `"- [a :fire:](u)"`
(the tag between the fire run and `]` hides the `":fire:]"` pattern, and
the staleness step then strips the tag), and a second application with
the same result yields `"- [a :fire::fire:](u)"`. -/
theorem patcher_idempotence_fails_on_tagged_line :
    update_repo_freshness 0 (update_repo_score (toL "- [a :fire: :zzz:](u)") 200) none
      = toL "- [a :fire:](u)" ∧
    update_repo_freshness 0 (update_repo_score (toL "- [a :fire:](u)") 200) none
      = toL "- [a :fire::fire:](u)" ∧
    toL "- [a :fire:](u)" ≠ toL "- [a :fire::fire:](u)" := by
  refine ⟨by decide, by decide, by decide⟩

/-- C2 counterexample: with two links on one line, `update_repo_score`
patches every closing bracket, not only the first; the first-occurrence
result the claim predicts differs from what the code produces. -/
theorem score_patch_replaces_all_occurrences_not_first :
    update_repo_score (toL "- [a](u) [b](v)") 150
      = toL "- [a :fire:](u) [b :fire:](v)" ∧
    update_repo_score (toL "- [a](u) [b](v)") 150
      ≠ replaceFirst (toL "]") (toL " " ++ fires 1 ++ toL "]") (toL "- [a](u) [b](v)") := by
  refine ⟨by decide, by decide⟩

/-- C2 amended: if the computed tier equals the count of cached fire
markers the line is unchanged; otherwise every occurrence (left-to-right,
non-overlapping) of the old fire run followed by `]` is replaced by the
new run followed by `]`, with a leading space exactly when the cached
score was 0; the two scenario lines behave as the claim states. -/
theorem update_repo_score_spec (line : List Char) (stars : Int) :
    (score_repo stars = countOccur (toL ":fire:") line →
      update_repo_score line stars = line) ∧
    (score_repo stars ≠ countOccur (toL ":fire:") line →
      update_repo_score line stars =
        replaceAll (fires (countOccur (toL ":fire:") line) ++ toL "]")
          ((if countOccur (toL ":fire:") line = 0 then toL " " else []) ++
            fires (score_repo stars) ++ toL "]") line) ∧
    update_repo_score (toL "- [cool-repo](https://github.com/acme/cool-repo)") 150
      = toL "- [cool-repo :fire:](https://github.com/acme/cool-repo)" ∧
    update_repo_score
        (toL "- [cool-repo :fire::fire:](https://github.com/acme/cool-repo)") 150
      = toL "- [cool-repo :fire:](https://github.com/acme/cool-repo)" := by
  refine ⟨?_, ?_, by decide, by decide⟩
  · intro h
    simp [update_repo_score, h]
  · intro h
    simp [update_repo_score, h]

/-- C2 amended, applied at the zero-marker scenario line with 150 stars,
discharging the tier-differs hypothesis there. -/
theorem update_repo_score_spec_witness :
    update_repo_score (toL "- [cool-repo](https://github.com/acme/cool-repo)") 150
      = replaceAll (fires 0 ++ toL "]") (toL " " ++ fires 1 ++ toL "]")
          (toL "- [cool-repo](https://github.com/acme/cool-repo)") := by
  have h := (update_repo_score_spec
    (toL "- [cool-repo](https://github.com/acme/cool-repo)") 150).2.1 (by decide)
  simpa using h

/-- C10: the staleness patch strips `" :zzz:"` and `" :hourglass:"`
wherever they occur in the line — the position of the occurrence is
arbitrary (`A` and `B` are any surrounding text, e.g. link text or URL),
not restricted to just before the closing bracket — so such occurrences
are deleted from the output.  The side conditions say only that the
surrounding text contains no further tag occurrences. -/
theorem freshness_strip_is_global (A B : List Char) (now : Int) :
    (containsSub (toL " :zzz:") (A ++ (toL " :zzz:").take 5) = false →
     containsSub (toL " :zzz:") B = false →
     containsSub (toL " :hourglass:") (A ++ B) = false →
     update_repo_freshness now (A ++ toL " :zzz:" ++ B) none = A ++ B) ∧
    (containsSub (toL " :zzz:") (A ++ toL " :hourglass:" ++ B) = false →
     containsSub (toL " :hourglass:") (A ++ (toL " :hourglass:").take 11) = false →
     containsSub (toL " :hourglass:") B = false →
     update_repo_freshness now (A ++ toL " :hourglass:" ++ B) none = A ++ B) := by
  constructor
  · intro h1 h2 h3
    have hz : replaceAll (toL " :zzz:") [] (A ++ toL " :zzz:" ++ B) = A ++ B := by
      rw [replaceAll_skip (toL " :zzz:") [] A B (by decide) h1,
        replaceAll_no_match _ _ B h2]
      simp
    simp only [update_repo_freshness, score_freshness, if_true]
    rw [hz, replaceAll_no_match _ _ _ h3]
  · intro h1 h2 h3
    have hz : replaceAll (toL " :zzz:") [] (A ++ toL " :hourglass:" ++ B)
        = A ++ toL " :hourglass:" ++ B := replaceAll_no_match _ _ _ h1
    have hh : replaceAll (toL " :hourglass:") [] (A ++ toL " :hourglass:" ++ B)
        = A ++ B := by
      rw [replaceAll_skip (toL " :hourglass:") [] A B (by decide) h2,
        replaceAll_no_match _ _ B h3]
      simp
    simp only [update_repo_freshness, score_freshness, if_true]
    rw [hz, hh]

/-- C10, applied with the `" :zzz:"` occurrence inside the URL of the
line `"- [repo](https://github.com/a/b :zzz:/c)"`: the tag is deleted
from the URL. -/
theorem freshness_strip_is_global_witness :
    update_repo_freshness 0
        (toL "- [repo](https://github.com/a/b" ++ toL " :zzz:" ++ toL "/c)") none
      = toL "- [repo](https://github.com/a/b" ++ toL "/c)" :=
  (freshness_strip_is_global (toL "- [repo](https://github.com/a/b") (toL "/c)") 0).1
    (by decide) (by decide) (by decide)

/-- C6 counterexample: status 201 is a 2xx success for the claim, but the
code compares against 200 only, so 201 is classified `HttpError(201)`
(error `"HTTP 201"`, no star count) instead of a success result. -/
theorem fetch_status_201_not_success :
    (fetch_repo_info (.response 201 (toL "") ⟨7, none⟩) (toL "u")).error
      = some (toL "HTTP 201") ∧
    (fetch_repo_info (.response 201 (toL "") ⟨7, none⟩) (toL "u")).stars = none := by
  refine ⟨by decide, by decide⟩

/-- C6 amended: 404 is `"Not found"`; 403 with a rate-limit indicator in
the lower-cased body is `"Rate limited"`, otherwise `"Forbidden"`; any
status other than 404, 403 and exactly 200 is `"HTTP <code>"`; a timeout
is `"Timeout"`; any other transport fault keeps its message truncated to
at most 50 characters; and exactly status 200 is a success carrying the
parsed star count and the optional last-push timestamp (null or absent
treated as absent). -/
theorem fetch_repo_info_taxonomy (url body msg : List Char) (status : Nat)
    (data : JsonData) :
    fetch_repo_info (.response 404 body data) url
      = ⟨url, none, none, some (toL "Not found")⟩ ∧
    (containsSub (toL "rate limit") (lowerL body) = true →
      fetch_repo_info (.response 403 body data) url
        = ⟨url, none, none, some (toL "Rate limited")⟩) ∧
    (containsSub (toL "rate limit") (lowerL body) = false →
      fetch_repo_info (.response 403 body data) url
        = ⟨url, none, none, some (toL "Forbidden")⟩) ∧
    (status ≠ 404 → status ≠ 403 → status ≠ 200 →
      fetch_repo_info (.response status body data) url
        = ⟨url, none, none, some (toL "HTTP " ++ (Nat.repr status).toList)⟩) ∧
    fetch_repo_info (.response 200 body data) url
      = ⟨url, some data.stargazers_count, data.pushed_at, none⟩ ∧
    fetch_repo_info .timeout url = ⟨url, none, none, some (toL "Timeout")⟩ ∧
    fetch_repo_info (.transportError msg) url
      = ⟨url, none, none, some (msg.take 50)⟩ ∧
    (msg.take 50).length ≤ 50 := by
  refine ⟨rfl, ?_, ?_, ?_, rfl, rfl, rfl, ?_⟩
  · intro h
    simp [fetch_repo_info, h]
  · intro h
    simp [fetch_repo_info, h]
  · intro h404 h403 h200
    simp [fetch_repo_info, h404, h403, h200]
  · rw [List.length_take]
    omega

/-- C6 amended, applied at status 500 with the non-404/403/200 hypotheses
discharged, and at a 403 body containing a rate-limit indicator. -/
theorem fetch_repo_info_taxonomy_witness :
    fetch_repo_info (.response 500 (toL "boom") ⟨1, none⟩) (toL "u")
      = ⟨toL "u", none, none, some (toL "HTTP " ++ (Nat.repr 500).toList)⟩ :=
  (fetch_repo_info_taxonomy (toL "u") (toL "boom") (toL "m") 500 ⟨1, none⟩).2.2.2.1
    (by decide) (by decide) (by decide)

/-- C9: the staleness reference time is not captured once per run —
`score_freshness` reads the clock on every call.  Two byte-identical
lines with byte-identical successful fetch results (150 stars, pushed at
epoch 0), processed in one run while the clock moves from day 730 to day
731, receive different staleness tags, so the output of the run is not a
function of the input lines, the fetch results and a single captured
time. -/
theorem per_line_clock_breaks_single_reference_time :
    processEntries (fun k => 63072000 + 86400 * (k : Int)) 0
        [ (toL "- [a](u)", some ⟨toL "u", some 150, some 0, none⟩)
        , (toL "- [a](u)", some ⟨toL "u", some 150, some 0, none⟩) ]
      = .ok ([toL "- [a :fire:](u)", toL "- [a :fire: :hourglass:](u)"], []) ∧
    toL "- [a :fire:](u)" ≠ toL "- [a :fire: :hourglass:](u)" := by
  refine ⟨rfl, by decide⟩

/-- C8 counterexample: a fetch result of kind Other with an empty message
(`str(e)[:50] = ""`, so `r.error = some ""` is falsy) is routed to the
success branch, where `score_repo(None)` raises a `TypeError`: the run
crashes, so the line is not left unchanged in any output and its URL is
reported nowhere. -/
theorem empty_error_message_crashes_run :
    processEntries (fun _ => 0) 0
        [(toL "- [x](https://github.com/a/b)",
          some ⟨toL "https://github.com/a/b", none, none, some []⟩)]
      = .error .typeError ∧
    processEntries (fun _ => 0) 0
        [(toL "- [x](https://github.com/a/b)",
          some ⟨toL "https://github.com/a/b", none, none, some []⟩)]
      ≠ .ok ([toL "- [x](https://github.com/a/b)"], [toL "https://github.com/a/b"]) := by
  exact ⟨rfl, fun h => Except.noConfusion h⟩

/-- C5: one `"Rate limited"` fetch result anywhere in the entry list makes
the patch loop exit before the write-back — `processEntries` never
returns `.ok`, whatever the position of the rate-limited entry, the clock, or
the call counter. -/
theorem rate_limited_aborts_run :
    ∀ (es : List (List Char × Option RepoRes)) (clock : Nat → Int) (k : Nat),
      (∃ l r, (l, some r) ∈ es ∧ r.error = some (toL "Rate limited")) →
      ∀ (ls bs : List (List Char)), processEntries clock k es ≠ .ok (ls, bs) := by
  intro es
  induction es with
  | nil =>
    rintro clock k ⟨l, r, hmem, -⟩ ls bs -
    exact absurd hmem (List.not_mem_nil _)
  | cons e rest ih =>
    rintro clock k ⟨l, r, hmem, herr⟩ ls bs h
    rcases List.mem_cons.mp hmem with he | hm
    · subst he
      simp only [processEntries] at h
      rw [if_pos herr] at h
      exact absurd h (by simp)
    · obtain ⟨l', or⟩ := e
      cases or with
      | none =>
        simp only [processEntries] at h
        split at h
        · rename_i ls' bs' heq
          exact ih clock k ⟨l, r, hm, herr⟩ ls' bs' heq
        · exact absurd h (by simp)
      | some r' =>
        simp only [processEntries] at h
        split at h
        · exact absurd h (by simp)
        · split at h
          · split at h
            · rename_i ls' bs' heq
              exact ih clock k ⟨l, r, hm, herr⟩ ls' bs' heq
            · exact absurd h (by simp)
          · split at h
            · exact absurd h (by simp)
            · split at h
              · rename_i ls' bs' heq
                exact ih clock (k + 1) ⟨l, r, hm, herr⟩ ls' bs' heq
              · exact absurd h (by simp)

/-- C5, applied to a one-entry list whose only fetch result is rate
limited: the loop does not reach the write-back. -/
theorem rate_limited_aborts_run_witness :
    processEntries (fun _ => 0) 0
        [(toL "- [x](u)", some ⟨toL "u", none, none, some (toL "Rate limited")⟩)]
      ≠ .ok ([toL "- [x](u)"], []) :=
  rate_limited_aborts_run
    [(toL "- [x](u)", some ⟨toL "u", none, none, some (toL "Rate limited")⟩)]
    (fun _ => 0) 0
    ⟨toL "- [x](u)", ⟨toL "u", none, none, some (toL "Rate limited")⟩,
      List.mem_singleton.mpr rfl, rfl⟩
    [toL "- [x](u)"] []

theorem processEntries_keeps_unfetched :
    ∀ (es : List (List Char × Option RepoRes)) (clock : Nat → Int) (k : Nat)
      (ls bs : List (List Char)) (i : Nat) (l : List Char),
      processEntries clock k es = .ok (ls, bs) → es[i]? = some (l, none) →
      ls[i]? = some l := by
  intro es
  induction es with
  | nil => intro clock k ls bs i l _ hget; simp at hget
  | cons e rest ih =>
    intro clock k ls bs i l h hget
    obtain ⟨l', or⟩ := e
    cases or with
    | none =>
      simp only [processEntries] at h
      split at h
      · rename_i ls' bs' heq
        simp only [Except.ok.injEq, Prod.mk.injEq] at h
        obtain ⟨hls, hbs⟩ := h
        subst hls
        cases i with
        | zero =>
          simp only [List.getElem?_cons_zero, Option.some.injEq, Prod.mk.injEq] at hget
          simp only [List.getElem?_cons_zero, Option.some.injEq]
          exact hget.1
        | succ j =>
          simp only [List.getElem?_cons_succ] at hget ⊢
          exact ih clock k ls' bs' j l heq hget
      · exact absurd h (by simp)
    | some r =>
      simp only [processEntries] at h
      split at h
      · exact absurd h (by simp)
      · split at h
        · split at h
          · rename_i ls' bs' heq
            simp only [Except.ok.injEq, Prod.mk.injEq] at h
            obtain ⟨hls, hbs⟩ := h
            subst hls
            cases i with
            | zero =>
              simp only [List.getElem?_cons_zero, Option.some.injEq, Prod.mk.injEq] at hget
              exact absurd hget.2 (by simp)
            | succ j =>
              simp only [List.getElem?_cons_succ] at hget ⊢
              exact ih clock k ls' bs' j l heq hget
          · exact absurd h (by simp)
        · split at h
          · exact absurd h (by simp)
          · split at h
            · rename_i ls' bs' heq
              simp only [Except.ok.injEq, Prod.mk.injEq] at h
              obtain ⟨hls, hbs⟩ := h
              subst hls
              cases i with
              | zero =>
                simp only [List.getElem?_cons_zero, Option.some.injEq, Prod.mk.injEq] at hget
                exact absurd hget.2 (by simp)
              | succ j =>
                simp only [List.getElem?_cons_succ] at hget ⊢
                exact ih clock (k + 1) ls' bs' j l heq hget
            · exact absurd h (by simp)

/-- C8 amended: for every entry whose fetch result carries a non-empty
error message other than `"Rate limited"`, if the patch loop does reach
the write-back (returns `.ok`), then that line is byte-identical in the
output list and its URL appears in the broken-repository report. -/
theorem local_error_line_unchanged_and_reported :
    ∀ (es : List (List Char × Option RepoRes)) (clock : Nat → Int) (k i : Nat)
      (l s : List Char) (r : RepoRes) (ls bs : List (List Char)),
      es[i]? = some (l, some r) → r.error = some s → s ≠ [] →
      s ≠ toL "Rate limited" →
      processEntries clock k es = .ok (ls, bs) →
      ls[i]? = some l ∧ r.url ∈ bs := by
  intro es
  induction es with
  | nil => intro clock k i l s r ls bs hget _ _ _ _; simp at hget
  | cons e rest ih =>
    intro clock k i l s r ls bs hget herr hs hsrl h
    obtain ⟨l', or⟩ := e
    cases or with
    | none =>
      simp only [processEntries] at h
      split at h
      · rename_i ls' bs' heq
        simp only [Except.ok.injEq, Prod.mk.injEq] at h
        obtain ⟨hls, hbs⟩ := h
        subst hls; subst hbs
        cases i with
        | zero =>
          simp only [List.getElem?_cons_zero, Option.some.injEq, Prod.mk.injEq] at hget
          exact absurd hget.2 (by simp)
        | succ j =>
          simp only [List.getElem?_cons_succ] at hget
          have hrec := ih clock k j l s r ls' bs' hget herr hs hsrl heq
          exact ⟨by simpa using hrec.1, hrec.2⟩
      · exact absurd h (by simp)
    | some r' =>
      simp only [processEntries] at h
      split at h
      · exact absurd h (by simp)
      · split at h
        · split at h
          · rename_i ls' bs' heq
            simp only [Except.ok.injEq, Prod.mk.injEq] at h
            obtain ⟨hls, hbs⟩ := h
            subst hls; subst hbs
            cases i with
            | zero =>
              simp only [List.getElem?_cons_zero, Option.some.injEq, Prod.mk.injEq] at hget
              obtain ⟨hl, hr⟩ := hget
              subst hl
              obtain rfl : r' = r := by simpa using hr
              exact ⟨by simp, List.mem_cons_self _ _⟩
            | succ j =>
              simp only [List.getElem?_cons_succ] at hget
              have hrec := ih clock k j l s r ls' bs' hget herr hs hsrl heq
              exact ⟨by simpa using hrec.1, List.mem_cons_of_mem _ hrec.2⟩
          · exact absurd h (by simp)
        · rename_i hnt
          split at h
          · exact absurd h (by simp)
          · split at h
            · rename_i ls' bs' heq
              simp only [Except.ok.injEq, Prod.mk.injEq] at h
              obtain ⟨hls, hbs⟩ := h
              subst hls; subst hbs
              cases i with
              | zero =>
                simp only [List.getElem?_cons_zero, Option.some.injEq, Prod.mk.injEq] at hget
                obtain ⟨hl, hr⟩ := hget
                obtain rfl : r' = r := by simpa using hr
                rw [herr] at hnt
                cases s with
                | nil => exact absurd rfl hs
                | cons a as => exact absurd (by simp [errTruthy]) hnt
              | succ j =>
                simp only [List.getElem?_cons_succ] at hget
                have hrec := ih clock (k + 1) j l s r ls' bs' hget herr hs hsrl heq
                exact ⟨by simpa using hrec.1, hrec.2⟩
            · exact absurd h (by simp)

/-- C8 amended, applied to a one-entry list whose result is a
`"Not found"` error: the line survives unchanged and its URL is
reported. -/
theorem local_error_line_unchanged_and_reported_witness :
    ([toL "- [x](https://github.com/a/b)"] : List (List Char))[0]?
        = some (toL "- [x](https://github.com/a/b)") ∧
    toL "https://github.com/a/b" ∈ [toL "https://github.com/a/b"] :=
  local_error_line_unchanged_and_reported
    [(toL "- [x](https://github.com/a/b)",
      some ⟨toL "https://github.com/a/b", none, none, some (toL "Not found")⟩)]
    (fun _ => 0) 0 0
    (toL "- [x](https://github.com/a/b)") (toL "Not found")
    ⟨toL "https://github.com/a/b", none, none, some (toL "Not found")⟩
    [toL "- [x](https://github.com/a/b)"] [toL "https://github.com/a/b"]
    rfl rfl (by decide) (by decide) rfl

theorem buildWorklistFrom_idx_ge :
    ∀ (ls : List (List Char)) (base : Nat)
      (x : Nat × List Char × List Char × List Char),
      x ∈ buildWorklistFrom base ls → base ≤ x.1 := by
  intro ls
  induction ls with
  | nil => intro base x hx; simp [buildWorklistFrom] at hx
  | cons l tl ih =>
    intro base x hx
    cases hel : eligible l with
    | none =>
      simp only [buildWorklistFrom, hel] at hx
      have := ih (base + 1) x hx
      omega
    | some onu =>
      obtain ⟨o, n, u⟩ := onu
      simp only [buildWorklistFrom, hel] at hx
      rcases List.mem_cons.mp hx with he | hm
      · subst he; simp
      · have := ih (base + 1) x hm
        omega

theorem buildWorklistFrom_ne :
    ∀ (ls : List (List Char)) (base i : Nat) (l : List Char),
      ls[i]? = some l → eligible l = none →
      ∀ x ∈ buildWorklistFrom base ls, x.1 ≠ base + i := by
  intro ls
  induction ls with
  | nil => intro base i l hget; simp at hget
  | cons l' tl ih =>
    intro base i l hget hel x hx
    cases i with
    | zero =>
      simp only [List.getElem?_cons_zero, Option.some.injEq] at hget
      subst hget
      simp only [buildWorklistFrom, hel] at hx
      have := buildWorklistFrom_idx_ge tl (base + 1) x hx
      omega
    | succ j =>
      simp only [List.getElem?_cons_succ] at hget
      cases hel' : eligible l' with
      | none =>
        simp only [buildWorklistFrom, hel'] at hx
        have := ih (base + 1) j l hget hel x hx
        omega
      | some onu =>
        obtain ⟨o, n, u⟩ := onu
        simp only [buildWorklistFrom, hel'] at hx
        rcases List.mem_cons.mp hx with he | hm
        · subst he; simp
        · have := ih (base + 1) j l hget hel x hm
          omega

theorem mkEntries_getElem (lines : List (List Char))
    (fetch : List Char × List Char × List Char → RepoRes) (i : Nat)
    (line : List Char) (h : lines[i]? = some line) :
    (mkEntries lines fetch)[i]? = some (line, Option.map fetch (eligible line)) := by
  simp [mkEntries, List.getElem?_map, h]

/-- C7: a line whose extracted URL contains an Exclusion Set substring
never enters the fetch worklist (no index of `buildWorklist` points at
it), and whatever the fetch oracle and clock, if the run reaches the
write-back the line is byte-identical in the output. -/
theorem excluded_line_not_fetched_and_unchanged :
    ∀ (lines : List (List Char)) (i : Nat) (line url : List Char),
      lines[i]? = some line → extractUrl line = some url → isExcluded url = true →
      (∀ x ∈ buildWorklist lines, x.1 ≠ i) ∧
      (∀ (fetch : List Char × List Char × List Char → RepoRes) (clock : Nat → Int)
        (k : Nat) (ls bs : List (List Char)),
        processEntries clock k (mkEntries lines fetch) = .ok (ls, bs) →
        ls[i]? = some line) := by
  intro lines i line url hget hurl hex
  have hel : eligible line = none := by
    simp [eligible, hurl, hex]
  constructor
  · intro x hx
    have := buildWorklistFrom_ne lines 0 i line hget hel x hx
    simpa using this
  · intro fetch clock k ls bs h
    have hent : (mkEntries lines fetch)[i]?
        = some (line, Option.map fetch (eligible line)) :=
      mkEntries_getElem lines fetch i line hget
    rw [hel] at hent
    exact processEntries_keeps_unfetched (mkEntries lines fetch) clock k ls bs i line h
      (by simpa using hent)

/-- C7, applied to a one-line document containing the excluded URL
`https://github.com/sindresorhus/awesome`: under a fetch oracle and a
run that completes, the line is returned byte-identical. -/
theorem excluded_line_not_fetched_and_unchanged_witness :
    ([toL "- [Awesome](https://github.com/sindresorhus/awesome)"] :
        List (List Char))[0]?
      = some (toL "- [Awesome](https://github.com/sindresorhus/awesome)") :=
  (excluded_line_not_fetched_and_unchanged
      [toL "- [Awesome](https://github.com/sindresorhus/awesome)"] 0
      (toL "- [Awesome](https://github.com/sindresorhus/awesome)")
      (toL "https://github.com/sindresorhus/awesome")
      rfl (by decide) (by decide)).2
    (fun _ => ⟨[], none, none, some (toL "Not found")⟩) (fun _ => 0) 0
    [toL "- [Awesome](https://github.com/sindresorhus/awesome)"] [] rfl
